import Mathlib

/-!
Shallow embedding of `infisical_sdk/api_types.py`: the DTO model layer of a
secrets-management SDK.  Python values are dynamically typed, so we embed them
as an inductive `PyVal`:

* `PyVal.obj cls fields` models a `BaseModel` instance (`cls` is the class
  name, `fields` is the instance `__dict__` in field-declaration order, which
  is the order dataclass `__init__` assigns them);
* `PyVal.dict` models a plain Python `dict` (insertion ordered);
* `PyVal.enum cls v` models an `Enum` member whose `.value` is `v`
  (e.g. `ApprovalStatus.OPEN`);
* `PyVal.none` models Python `None`; the remaining constructors model JSON
  primitives.

Fallible operations (`from_dict`, i.e. `cls(**data)`, which raises `TypeError`
on unexpected or missing keyword arguments; `to_dict` on a non-instance;
`json.loads` on malformed text) return `Option`.
-/

set_option autoImplicit false

inductive PyVal where
  | str (s : String)
  | int (n : Int)
  | bool (b : Bool)
  | none
  | enum (cls : String) (value : String)
  | list (items : List PyVal)
  | dict (entries : List (String × PyVal))
  | obj (cls : String) (fields : List (String × PyVal))

/-- Python truth of `value is None`. -/
def isNone : PyVal → Bool
  | PyVal.none => true
  | _ => false

/-- Python `d[key]` on a dict: first (only) entry with that key. -/
def lookupD : List (String × PyVal) → String → Option PyVal
  | [], _ => Option.none
  | (k, v) :: rest, key => if k = key then some v else lookupD rest key

mutual

/-- How `BaseModel.to_dict` converts one field value: a nested `BaseModel`
becomes its own `to_dict`, a list converts its `BaseModel` items, an `Enum`
becomes its `.value`, everything else passes through unchanged.  Mirrors the
`isinstance` chain in `BaseModel.to_dict`. -/
def fieldConv : PyVal → PyVal
  | PyVal.obj _ fs => PyVal.dict (toDictFields fs)
  | PyVal.list xs => PyVal.list (convList xs)
  | PyVal.enum _ v => PyVal.str v
  | v => v

/-- Conversion `[item.to_dict() if isinstance(item, BaseModel) else item for item in value]`. -/
def convList : List PyVal → List PyVal
  | [] => []
  | PyVal.obj _ fs :: rest => PyVal.dict (toDictFields fs) :: convList rest
  | x :: rest => x :: convList rest

/-- The loop body of `BaseModel.to_dict`: walk `__dict__`, skip `None`
values, convert the rest. -/
def toDictFields : List (String × PyVal) → List (String × PyVal)
  | [] => []
  | (k, v) :: rest =>
      if isNone v then toDictFields rest else (k, fieldConv v) :: toDictFields rest

end

/-- Method `BaseModel.to_dict`: defined on model instances only. -/
def BaseModel.to_dict : PyVal → Option PyVal
  | PyVal.obj _ fs => some (PyVal.dict (toDictFields fs))
  | _ => Option.none

/-- A field spec entry: field name plus declared default (`Option.none` for a
required field). -/
abbrev FieldSpec := List (String × Option PyVal)

/-- The value bound to dataclass parameter `n` by `cls(**data)`: the dict
entry if the key is present (even when the value is `None`), else the declared
default, else failure (`TypeError: missing required argument`). -/
def argVal (data : List (String × PyVal)) (n : String) (d : Option PyVal) : Option PyVal :=
  match lookupD data n with
  | some v => some v
  | Option.none => d

/-- Bind every declared field, in declaration order, as `cls(**data)` does. -/
def constructFields : FieldSpec → List (String × PyVal) → Option (List (String × PyVal))
  | [], _ => some []
  | (n, d) :: rest, data =>
      match argVal data n d with
      | Option.none => Option.none
      | some v =>
          match constructFields rest data with
          | Option.none => Option.none
          | some fs => some ((n, v) :: fs)

/-- Construction `cls(**data)` for a dataclass with field spec `spec`: every key of `data`
must be a declared field (else `TypeError: unexpected keyword argument`),
every required field must be bound (else `TypeError: missing argument`); the
result's `__dict__` lists the fields in declaration order. -/
def mkObj (cls : String) (spec : FieldSpec) (data : List (String × PyVal)) : Option PyVal :=
  if data.all (fun p => spec.any (fun s => s.1 == p.1)) then
    match constructFields spec data with
    | some fs => some (PyVal.obj cls fs)
    | Option.none => Option.none
  else Option.none

/-- Member `OPEN` of `class ApprovalStatus(str, Enum)`. -/
def ApprovalStatus.OPEN : PyVal := PyVal.enum "ApprovalStatus" "open"

/-- Member `APPROVED` of `class ApprovalStatus(str, Enum)`. -/
def ApprovalStatus.APPROVED : PyVal := PyVal.enum "ApprovalStatus" "approved"

/-- Member `REJECTED` of `class ApprovalStatus(str, Enum)`. -/
def ApprovalStatus.REJECTED : PyVal := PyVal.enum "ApprovalStatus" "rejected"

/-- Field declarations of `@dataclass(frozen=True) class SecretTag`. -/
def SecretTag.fields : FieldSpec :=
  [("id", Option.none), ("slug", Option.none), ("name", Option.none),
   ("color", some PyVal.none)]

/-- Field declarations of `@dataclass class SecretMetadata`. -/
def SecretMetadata.fields : FieldSpec :=
  [("key", Option.none), ("value", Option.none)]

/-- Field declarations of `@dataclass class BaseSecret`. -/
def BaseSecret.fields : FieldSpec :=
  [("id", Option.none), ("_id", Option.none), ("workspace", Option.none),
   ("environment", Option.none), ("version", Option.none), ("type", Option.none),
   ("secretKey", Option.none), ("secretValue", Option.none),
   ("secretComment", Option.none), ("createdAt", Option.none),
   ("updatedAt", Option.none),
   ("secretReminderNote", some PyVal.none),
   ("secretReminderRepeatDays", some PyVal.none),
   ("skipMultilineEncoding", some (PyVal.bool false)),
   ("metadata", some PyVal.none),
   ("secretMetadata", some (PyVal.list [])),
   ("secretPath", some PyVal.none),
   ("tags", some (PyVal.list []))]

/-- Field declarations of `@dataclass class Import`. -/
def Import.fields : FieldSpec :=
  [("secretPath", Option.none), ("environment", Option.none),
   ("folderId", some PyVal.none), ("secrets", some (PyVal.list []))]

/-- Field declarations of `@dataclass class MachineIdentityLoginResponse`. -/
def MachineIdentityLoginResponse.fields : FieldSpec :=
  [("accessToken", Option.none), ("expiresIn", Option.none),
   ("accessTokenMaxTTL", Option.none), ("tokenType", Option.none)]

/-- Generic `BaseModel.from_dict` at `cls = SecretTag`. -/
def SecretTag.from_dict (data : List (String × PyVal)) : Option PyVal :=
  mkObj "SecretTag" SecretTag.fields data

/-- Generic `BaseModel.from_dict` at `cls = SecretMetadata`. -/
def SecretMetadata.from_dict (data : List (String × PyVal)) : Option PyVal :=
  mkObj "SecretMetadata" SecretMetadata.fields data

/-- Generic `BaseModel.from_dict` at `cls = BaseSecret`. -/
def BaseSecret.from_dict (data : List (String × PyVal)) : Option PyVal :=
  mkObj "BaseSecret" BaseSecret.fields data

/-- Generic `BaseModel.from_dict` at `cls = Import`. -/
def Import.from_dict (data : List (String × PyVal)) : Option PyVal :=
  mkObj "Import" Import.fields data

/-- Generic `BaseModel.from_dict` at `cls = MachineIdentityLoginResponse`. -/
def MachineIdentityLoginResponse.from_dict (data : List (String × PyVal)) : Option PyVal :=
  mkObj "MachineIdentityLoginResponse" MachineIdentityLoginResponse.fields data

/-- Conversion `[BaseSecret.from_dict(secret) for secret in ...]`: each element must be a
mapping and parse; any failure propagates. -/
def parseSecrets : List PyVal → Option (List PyVal)
  | [] => some []
  | PyVal.dict d :: rest =>
      match BaseSecret.from_dict d with
      | some sec =>
          match parseSecrets rest with
          | some secs => some (sec :: secs)
          | Option.none => Option.none
      | Option.none => Option.none
  | _ :: _ => Option.none

/-- Conversion `[Import.from_dict(imp) for imp in ...]`. -/
def parseImports : List PyVal → Option (List PyVal)
  | [] => some []
  | PyVal.dict d :: rest =>
      match Import.from_dict d with
      | some imp =>
          match parseImports rest with
          | some imps => some (imp :: imps)
          | Option.none => Option.none
      | Option.none => Option.none
  | _ :: _ => Option.none

/-- Overridden `ListSecretsResponse.from_dict`: requires `data['secrets']`,
defaults `data.get('imports', [])`, converts both element-wise, then calls the
constructor with both fields bound explicitly.  Extra keys in `data` are never
inspected. -/
def ListSecretsResponse.from_dict (data : List (String × PyVal)) : Option PyVal :=
  match lookupD data "secrets" with
  | some (PyVal.list ss) =>
      match parseSecrets ss with
      | some secs =>
          match (lookupD data "imports").getD (PyVal.list []) with
          | PyVal.list is =>
              match parseImports is with
              | some imps =>
                  some (PyVal.obj "ListSecretsResponse"
                    [("secrets", PyVal.list secs), ("imports", PyVal.list imps)])
              | Option.none => Option.none
          | _ => Option.none
      | Option.none => Option.none
  | _ => Option.none

/-- Overridden `SingleSecretResponse.from_dict`: requires `data['secret']`, a
single mapping converted via `BaseSecret.from_dict`. -/
def SingleSecretResponse.from_dict (data : List (String × PyVal)) : Option PyVal :=
  match lookupD data "secret" with
  | some (PyVal.dict d) =>
      match BaseSecret.from_dict d with
      | some sec => some (PyVal.obj "SingleSecretResponse" [("secret", sec)])
      | Option.none => Option.none
  | _ => Option.none

/-- Method `BaseModel.from_json`: `json.loads` then `from_dict`.  The JSON decoder is
the external `json` stdlib, modelled abstractly as a fallible `decode`; a
decode failure (malformed text) propagates, and only a decoded mapping can be
splatted into the constructor. -/
def BaseModel.from_json (fromDict : List (String × PyVal) → Option PyVal)
    (decode : String → Option PyVal) (s : String) : Option PyVal :=
  match decode s with
  | some (PyVal.dict d) => fromDict d
  | some _ => Option.none
  | Option.none => Option.none

/-- Method `BaseModel.to_json`: `json.dumps(self.to_dict())` with the encoder
abstract. -/
def BaseModel.to_json (encode : PyVal → String) (x : PyVal) : Option String :=
  (BaseModel.to_dict x).map encode

/-- Which model classes are `@dataclass(frozen=True)`: only `SecretTag`. -/
def isFrozen : String → Bool
  | "SecretTag" => true
  | _ => false

/-- Attribute assignment `x.k = v` after construction.  For a frozen dataclass
the generated `__setattr__` raises `FrozenInstanceError`, so no updated object
exists (`Option.none`); otherwise the field is rebound. -/
def setattr (x : PyVal) (k : String) (v : PyVal) : Option PyVal :=
  match x with
  | PyVal.obj c fs =>
      if isFrozen c then Option.none
      else some (PyVal.obj c (fs.map (fun p => if p.1 = k then (p.1, v) else p)))
  | _ => Option.none

/-- A value that `fieldConv` passes through unchanged: not an instance, not an
enum member, and (if a list) containing no instances.  Decoded JSON values are
always of this shape. -/
def inert : PyVal → Bool
  | PyVal.obj _ _ => false
  | PyVal.enum _ _ => false
  | PyVal.list xs =>
      xs.all (fun x => match x with | PyVal.obj _ _ => false | _ => true)
  | _ => true

mutual

/-- A value that can result from decoding JSON text that contains no `null`:
primitives, lists and dicts of such values — never `None`, an instance or an
enum member. -/
def pureJson : PyVal → Bool
  | PyVal.str _ => true
  | PyVal.int _ => true
  | PyVal.bool _ => true
  | PyVal.list xs => pureJsonList xs
  | PyVal.dict kvs => pureJsonFields kvs
  | _ => false

def pureJsonList : List PyVal → Bool
  | [] => true
  | x :: rest => pureJson x && pureJsonList rest

def pureJsonFields : List (String × PyVal) → Bool
  | [] => true
  | (_, v) :: rest => pureJson v && pureJsonFields rest

end

/-- The wire mapping of the spec's `BaseSecret.from_dict` example: exactly the
eleven required fields. -/
def requiredSecretData : List (String × PyVal) :=
  [("id", PyVal.str "1"), ("_id", PyVal.str "1"), ("workspace", PyVal.str "w"),
   ("environment", PyVal.str "dev"), ("version", PyVal.int 1),
   ("type", PyVal.str "shared"), ("secretKey", PyVal.str "K"),
   ("secretValue", PyVal.str "V"), ("secretComment", PyVal.str ""),
   ("createdAt", PyVal.str "t"), ("updatedAt", PyVal.str "t")]

/-- The `BaseSecret` instance built from `requiredSecretData`: optional fields
carry their declared defaults, in declaration order. -/
def requiredSecretObj : PyVal :=
  PyVal.obj "BaseSecret"
    (requiredSecretData ++
      [("secretReminderNote", PyVal.none), ("secretReminderRepeatDays", PyVal.none),
       ("skipMultilineEncoding", PyVal.bool false), ("metadata", PyVal.none),
       ("secretMetadata", PyVal.list []), ("secretPath", PyVal.none),
       ("tags", PyVal.list [])])

/-- Expected `requiredSecretObj.to_dict()`: the `None`-valued optionals are omitted,
the non-`None` defaults are emitted. -/
def requiredSecretOut : List (String × PyVal) :=
  requiredSecretData ++
    [("skipMultilineEncoding", PyVal.bool false),
     ("secretMetadata", PyVal.list []), ("tags", PyVal.list [])]

/-- Every declared default of the spec passes through `to_dict` unchanged. -/
def defaultsInert (spec : FieldSpec) : Bool :=
  spec.all fun sp => match sp.2 with | some dv => inert dv | Option.none => true

/-- A well-shaped instance of a dataclass: field names follow the spec, all
values are `to_dict`-inert, and `None` values occur only where the declared
default is `None`.  Every instance built by `cls(**data)` from null-free
decoded JSON has this shape. -/
def GoodObj (cls : String) (spec : FieldSpec) (x : PyVal) : Prop :=
  ∃ fs, x = PyVal.obj cls fs ∧ fs.map Prod.fst = spec.map Prod.fst ∧
    (∀ p ∈ fs, inert p.2 = true) ∧
    (∀ p ∈ fs, isNone p.2 = true → (p.1, some PyVal.none) ∈ spec)

/-- Field declarations of `@dataclass class ListSecretsResponse` (its plain
constructor; `from_dict` is overridden). -/
def ListSecretsResponse.fields : FieldSpec :=
  [("secrets", Option.none), ("imports", some (PyVal.list []))]

/-- A `BaseSecret` built from the required wire fields plus an explicit
`skipMultilineEncoding=None` keyword: a record whose fields hold only JSON
primitives and whose list fields are empty. -/
def skipNoneSecretObj : PyVal :=
  PyVal.obj "BaseSecret"
    (requiredSecretData ++
      [("secretReminderNote", PyVal.none), ("secretReminderRepeatDays", PyVal.none),
       ("skipMultilineEncoding", PyVal.none), ("metadata", PyVal.none),
       ("secretMetadata", PyVal.list []), ("secretPath", PyVal.none),
       ("tags", PyVal.list [])])

/-- Serialization of `skipNoneSecretObj`: the `None`-valued
`skipMultilineEncoding` is omitted along with the other `None` fields. -/
def skipNoneSecretOut : List (String × PyVal) :=
  requiredSecretData ++
    [("secretMetadata", PyVal.list []), ("tags", PyVal.list [])]

/-- A wire mapping for a secret whose `secretValue` key is explicitly null. -/
def nullValueSecretData : List (String × PyVal) :=
  [("id", PyVal.str "1"), ("_id", PyVal.str "1"), ("workspace", PyVal.str "w"),
   ("environment", PyVal.str "dev"), ("version", PyVal.int 1),
   ("type", PyVal.str "shared"), ("secretKey", PyVal.str "K"),
   ("secretValue", PyVal.none), ("secretComment", PyVal.str ""),
   ("createdAt", PyVal.str "t"), ("updatedAt", PyVal.str "t")]

/-- The `BaseSecret` instance built from `nullValueSecretData`. -/
def nullValueSecretObj : PyVal :=
  PyVal.obj "BaseSecret"
    (nullValueSecretData ++
      [("secretReminderNote", PyVal.none), ("secretReminderRepeatDays", PyVal.none),
       ("skipMultilineEncoding", PyVal.bool false), ("metadata", PyVal.none),
       ("secretMetadata", PyVal.list []), ("secretPath", PyVal.none),
       ("tags", PyVal.list [])])

/-- Serialization of `nullValueSecretObj`: the required field `secretValue`
disappears because its value is `None`. -/
def nullValueSecretOut : List (String × PyVal) :=
  [("id", PyVal.str "1"), ("_id", PyVal.str "1"), ("workspace", PyVal.str "w"),
   ("environment", PyVal.str "dev"), ("version", PyVal.int 1),
   ("type", PyVal.str "shared"), ("secretKey", PyVal.str "K"),
   ("secretComment", PyVal.str ""),
   ("createdAt", PyVal.str "t"), ("updatedAt", PyVal.str "t"),
   ("skipMultilineEncoding", PyVal.bool false),
   ("secretMetadata", PyVal.list []), ("tags", PyVal.list [])]

example : BaseSecret.from_dict requiredSecretData = some requiredSecretObj := rfl

example : BaseModel.to_dict requiredSecretObj = some (PyVal.dict requiredSecretOut) := rfl

example :
    ListSecretsResponse.from_dict [("secrets", PyVal.list [PyVal.dict requiredSecretData])] =
      some (PyVal.obj "ListSecretsResponse"
        [("secrets", PyVal.list [requiredSecretObj]), ("imports", PyVal.list [])]) := rfl

example :
    ListSecretsResponse.from_dict
        [("secrets", PyVal.list []), ("unexpectedKey", PyVal.int 0)] =
      some (PyVal.obj "ListSecretsResponse"
        [("secrets", PyVal.list []), ("imports", PyVal.list [])]) := rfl

example : SecretTag.from_dict [("id", PyVal.str "1"), ("bogus", PyVal.int 0)] = Option.none := rfl

/-! ### Basic lemmas about the embedded operations -/

theorem isNone_iff (v : PyVal) : isNone v = true ↔ v = PyVal.none := by
  cases v <;> simp [isNone]

theorem lookupD_eq_none {d : List (String × PyVal)} {k : String}
    (h : ∀ p ∈ d, p.1 ≠ k) : lookupD d k = Option.none := by
  induction d with
  | nil => rfl
  | cons p rest ih =>
      obtain ⟨k0, v0⟩ := p
      have hk : k0 ≠ k := h (k0, v0) (List.mem_cons_self _ _)
      simp only [lookupD, if_neg hk]
      exact ih fun q hq => h q (List.mem_cons_of_mem _ hq)

theorem mem_of_lookupD {d : List (String × PyVal)} {k : String} {v : PyVal}
    (h : lookupD d k = some v) : (k, v) ∈ d := by
  induction d with
  | nil => cases h
  | cons p rest ih =>
      obtain ⟨k0, v0⟩ := p
      by_cases hk : k0 = k
      · subst hk
        rw [lookupD, if_pos rfl] at h
        injection h with h2
        subst h2
        exact List.mem_cons_self _ _
      · simp only [lookupD, if_neg hk] at h
        exact List.mem_cons_of_mem _ (ih h)

theorem toDictFields_mem {fs : List (String × PyVal)} {p : String × PyVal}
    (h : p ∈ toDictFields fs) : ∃ v, (p.1, v) ∈ fs := by
  induction fs with
  | nil => cases h
  | cons q rest ih =>
      obtain ⟨k0, v0⟩ := q
      by_cases hn : isNone v0
      · rw [toDictFields, if_pos hn] at h
        obtain ⟨v, hv⟩ := ih h
        exact ⟨v, List.mem_cons_of_mem _ hv⟩
      · rw [toDictFields, if_neg hn] at h
        rcases List.mem_cons.mp h with he | hm
        · subst he
          exact ⟨v0, List.mem_cons_self _ _⟩
        · obtain ⟨v, hv⟩ := ih hm
          exact ⟨v, List.mem_cons_of_mem _ hv⟩

theorem lookupD_toDictFields_of_not_mem {fs : List (String × PyVal)} {k : String}
    (h : ∀ p ∈ fs, p.1 ≠ k) : lookupD (toDictFields fs) k = Option.none :=
  lookupD_eq_none fun p hp => by
    obtain ⟨v, hv⟩ := toDictFields_mem hp
    exact h (p.1, v) hv

/-- On a `__dict__` with distinct field names, looking a field up in the
`to_dict` output finds nothing when the field was `None`, and the converted
value otherwise. -/
theorem lookupD_toDictFields {fs : List (String × PyVal)}
    (hnd : (fs.map Prod.fst).Nodup) {k : String} {v : PyVal} (hm : (k, v) ∈ fs) :
    lookupD (toDictFields fs) k =
      if isNone v then Option.none else some (fieldConv v) := by
  induction fs with
  | nil => cases hm
  | cons q rest ih =>
      obtain ⟨k0, v0⟩ := q
      rw [List.map_cons, List.nodup_cons] at hnd
      obtain ⟨hk0, hndr⟩ := hnd
      rcases List.mem_cons.mp hm with he | hmem
      · rw [Prod.mk.injEq] at he
        obtain ⟨h1, h2⟩ := he
        subst h1; subst h2
        by_cases hn : isNone v
        · rw [toDictFields, if_pos hn, if_pos hn]
          exact lookupD_toDictFields_of_not_mem fun p hp => by
            intro e; subst e
            exact hk0 (List.mem_map.mpr ⟨p, hp, rfl⟩)
        · rw [toDictFields, if_neg hn, if_neg hn]
          simp [lookupD]
      · have hne : k0 ≠ k := by
          intro e; subst e
          exact hk0 (List.mem_map.mpr ⟨_, hmem, rfl⟩)
        by_cases hn : isNone v0
        · rw [toDictFields, if_pos hn]
          exact ih hndr hmem
        · rw [toDictFields, if_neg hn]
          simp only [lookupD, if_neg hne]
          exact ih hndr hmem

theorem convList_of_no_obj {xs : List PyVal}
    (h : xs.all (fun x => match x with | PyVal.obj _ _ => false | _ => true) = true) :
    convList xs = xs := by
  induction xs with
  | nil => rfl
  | cons x rest ih =>
      rw [List.all_cons, Bool.and_eq_true] at h
      obtain ⟨hx, hrest⟩ := h
      cases x <;> simp_all [convList]

theorem fieldConv_of_inert {v : PyVal} (h : inert v = true) : fieldConv v = v := by
  cases v with
  | list xs =>
      rw [inert] at h
      rw [fieldConv, convList_of_no_obj h]
  | obj c fs => exact absurd h (by simp [inert])
  | enum c s => exact absurd h (by simp [inert])
  | str s => rfl
  | int n => rfl
  | bool b => rfl
  | none => rfl
  | dict d => rfl

/-! ### Lemmas about generic construction (`cls(**data)`) -/

/-- With `Nodup` field names, the declared default of a field is determined by
its name. -/
theorem spec_default_unique {spec : FieldSpec} (hnd : (spec.map Prod.fst).Nodup)
    {k : String} {d d' : Option PyVal}
    (h1 : (k, d) ∈ spec) (h2 : (k, d') ∈ spec) : d = d' := by
  induction spec with
  | nil => cases h1
  | cons sp rest ih =>
      obtain ⟨n0, d0⟩ := sp
      rw [List.map_cons, List.nodup_cons] at hnd
      obtain ⟨hk, hndr⟩ := hnd
      rcases List.mem_cons.mp h1 with e1 | m1 <;> rcases List.mem_cons.mp h2 with e2 | m2
      · injection e1 with ek ed
        injection e2 with ek' ed'
        rw [ed, ed']
      · exfalso
        injection e1 with ek ed
        subst ek
        exact hk (List.mem_map.mpr ⟨_, m2, rfl⟩)
      · exfalso
        injection e2 with ek ed
        subst ek
        exact hk (List.mem_map.mpr ⟨_, m1, rfl⟩)
      · exact ih hndr m1 m2

theorem constructFields_of_forall₂ {dict : List (String × PyVal)}
    {spec : FieldSpec} {fs : List (String × PyVal)}
    (h : List.Forall₂
      (fun sp fl => sp.1 = fl.1 ∧ argVal dict sp.1 sp.2 = some fl.2) spec fs) :
    constructFields spec dict = some fs := by
  induction h with
  | nil => rfl
  | cons hpq hrest ih =>
      rename_i a b l1 l2
      obtain ⟨n, d⟩ := a
      obtain ⟨n', v⟩ := b
      obtain ⟨hn, ha⟩ := hpq
      have hn' : n = n' := hn
      subst hn'
      have ha' : argVal dict n d = some v := ha
      rw [constructFields, ha', ih]

/-- Build a lockstep `Forall₂` from name agreement plus a relation that only
needs membership and name equality. -/
theorem forall₂_of_same_names {R : (String × Option PyVal) → (String × PyVal) → Prop}
    {spec : FieldSpec} {fs : List (String × PyVal)}
    (hnames : fs.map Prod.fst = spec.map Prod.fst)
    (hR : ∀ sp ∈ spec, ∀ fl ∈ fs, sp.1 = fl.1 → R sp fl) :
    List.Forall₂ R spec fs := by
  induction spec generalizing fs with
  | nil =>
      cases fs with
      | nil => exact List.Forall₂.nil
      | cons fl fs' => simp at hnames
  | cons sp spec' ih =>
      cases fs with
      | nil => simp at hnames
      | cons fl fs' =>
          rw [List.map_cons, List.map_cons] at hnames
          injection hnames with h1 h2
          refine List.Forall₂.cons
            (hR sp (List.mem_cons_self _ _) fl (List.mem_cons_self _ _) h1.symm)
            (ih h2 fun sp2 hsp fl2 hfl he =>
              hR sp2 (List.mem_cons_of_mem _ hsp) fl2 (List.mem_cons_of_mem _ hfl) he)

/-- Round-trip core: serializing an instance whose field names follow its
(duplicate-free) dataclass spec, whose values pass through `to_dict`
unchanged, and whose `None` values sit only in fields whose declared default
is `None`, then reconstructing with `cls(**·)`, reproduces the instance. -/
theorem mkObj_toDictFields_roundTrip (c : String) (spec : FieldSpec)
    (fs : List (String × PyVal))
    (hnames : fs.map Prod.fst = spec.map Prod.fst)
    (hnd : (spec.map Prod.fst).Nodup)
    (hinert : ∀ p ∈ fs, inert p.2 = true)
    (hnone : ∀ p ∈ fs, isNone p.2 = true → (p.1, some PyVal.none) ∈ spec) :
    mkObj c spec (toDictFields fs) = some (PyVal.obj c fs) := by
  have hndf : (fs.map Prod.fst).Nodup := by rw [hnames]; exact hnd
  have hall : (toDictFields fs).all (fun p => spec.any (fun s => s.1 == p.1)) = true := by
    rw [List.all_eq_true]
    intro p hp
    obtain ⟨v, hv⟩ := toDictFields_mem hp
    have hmem : p.1 ∈ spec.map Prod.fst := by
      rw [← hnames]
      exact List.mem_map.mpr ⟨_, hv, rfl⟩
    obtain ⟨sp, hsp, he⟩ := List.mem_map.mp hmem
    rw [List.any_eq_true]
    exact ⟨sp, hsp, by rw [beq_iff_eq]; exact he⟩
  have hF : List.Forall₂
      (fun sp fl => sp.1 = fl.1 ∧ argVal (toDictFields fs) sp.1 sp.2 = some fl.2)
      spec fs := by
    refine forall₂_of_same_names hnames ?_
    intro sp hsp fl hfl he
    refine ⟨he, ?_⟩
    have hfl' : (fl.1, fl.2) ∈ fs := by rw [Prod.mk.eta]; exact hfl
    have hlook := lookupD_toDictFields hndf hfl'
    rw [argVal, he, hlook]
    by_cases hn : isNone fl.2
    · rw [if_pos hn]
      have h1 : (fl.1, some PyVal.none) ∈ spec := hnone fl hfl hn
      have hsp' : (sp.1, sp.2) ∈ spec := by rw [Prod.mk.eta]; exact hsp
      rw [he] at hsp'
      have h2 : sp.2 = some PyVal.none := spec_default_unique hnd hsp' h1
      rw [h2, (isNone_iff fl.2).mp hn]
    · rw [if_neg hn, fieldConv_of_inert (hinert fl hfl)]
  rw [mkObj, if_pos hall, constructFields_of_forall₂ hF]

/-! ### Forward facts about `cls(**data)` results -/

theorem constructFields_names {spec : FieldSpec} {data : List (String × PyVal)}
    {fs : List (String × PyVal)} (h : constructFields spec data = some fs) :
    fs.map Prod.fst = spec.map Prod.fst := by
  induction spec generalizing fs with
  | nil =>
      rw [constructFields] at h
      injection h with h2
      subst h2
      rfl
  | cons sp rest ih =>
      obtain ⟨n, d⟩ := sp
      rw [constructFields] at h
      split at h
      · cases h
      · split at h
        · cases h
        · rename_i v hv fs' hcf
          injection h with h2
          subst h2
          rw [List.map_cons, List.map_cons, ih hcf]

theorem argVal_some {data : List (String × PyVal)} {n : String} {d : Option PyVal}
    {v : PyVal} (h : lookupD data n = some v) : argVal data n d = some v := by
  unfold argVal
  rw [h]

theorem argVal_none {data : List (String × PyVal)} {n : String} {d : Option PyVal}
    (h : lookupD data n = Option.none) : argVal data n d = d := by
  unfold argVal
  rw [h]

theorem constructFields_mem_spec {spec : FieldSpec} {data : List (String × PyVal)}
    {fs : List (String × PyVal)} (h : constructFields spec data = some fs) :
    ∀ p ∈ fs, lookupD data p.1 = some p.2 ∨
      (lookupD data p.1 = Option.none ∧ (p.1, some p.2) ∈ spec) := by
  induction spec generalizing fs with
  | nil =>
      rw [constructFields] at h
      injection h with h2
      subst h2
      intro p hp
      cases hp
  | cons sp rest ih =>
      obtain ⟨n, d⟩ := sp
      cases hv : argVal data n d with
      | none =>
          rw [constructFields, hv] at h
          simp at h
      | some v =>
          cases hcf : constructFields rest data with
          | none =>
              rw [constructFields, hv, hcf] at h
              simp at h
          | some fs' =>
              rw [constructFields, hv, hcf] at h
              injection h with h2
              subst h2
              intro p hp
              rcases List.mem_cons.mp hp with he | hm
              · subst he
                cases hw : lookupD data n with
                | some w =>
                    rw [argVal_some hw] at hv
                    injection hv with hv2
                    subst hv2
                    exact Or.inl rfl
                | none =>
                    rw [argVal_none hw] at hv
                    refine Or.inr ⟨rfl, ?_⟩
                    rw [hv]
                    exact List.mem_cons_self _ _
              · rcases ih hcf p hm with h1 | ⟨h2a, h2b⟩
                · exact Or.inl h1
                · exact Or.inr ⟨h2a, List.mem_cons_of_mem _ h2b⟩

theorem constructFields_entry {spec : FieldSpec} {data : List (String × PyVal)}
    {fs : List (String × PyVal)} (h : constructFields spec data = some fs)
    {n : String} {d : Option PyVal} (hm : (n, d) ∈ spec) :
    ∃ v, argVal data n d = some v ∧ (n, v) ∈ fs := by
  induction spec generalizing fs with
  | nil => cases hm
  | cons sp rest ih =>
      obtain ⟨n0, d0⟩ := sp
      cases hv : argVal data n0 d0 with
      | none =>
          rw [constructFields, hv] at h
          simp at h
      | some v =>
          cases hcf : constructFields rest data with
          | none =>
              rw [constructFields, hv, hcf] at h
              simp at h
          | some fs' =>
              rw [constructFields, hv, hcf] at h
              injection h with h2
              subst h2
              rcases List.mem_cons.mp hm with he | hmem
              · injection he with e1 e2
                subst e1
                subst e2
                exact ⟨v, hv, List.mem_cons_self _ _⟩
              · obtain ⟨w, hw1, hw2⟩ := ih hcf hmem
                exact ⟨w, hw1, List.mem_cons_of_mem _ hw2⟩

theorem constructFields_missing {spec : FieldSpec} {data : List (String × PyVal)}
    {n : String} (hm : (n, Option.none) ∈ spec) (hl : lookupD data n = Option.none) :
    constructFields spec data = Option.none := by
  induction spec with
  | nil => cases hm
  | cons sp rest ih =>
      obtain ⟨n0, d0⟩ := sp
      rcases List.mem_cons.mp hm with he | hmem
      · injection he with e1 e2
        subst e1
        subst e2
        simp only [constructFields, argVal, hl]
      · rw [constructFields, ih hmem]
        split <;> rfl

theorem mkObj_some {c : String} {spec : FieldSpec} {data : List (String × PyVal)}
    {x : PyVal} (h : mkObj c spec data = some x) :
    ∃ fs, constructFields spec data = some fs ∧ x = PyVal.obj c fs := by
  rw [mkObj] at h
  split at h
  · split at h
    · rename_i fs hcf
      injection h with h2
      exact ⟨fs, hcf, h2.symm⟩
    · cases h
  · cases h

/-- Construction `cls(**data)` fails when a required field is absent from `data`. -/
theorem mkObj_missing_required {c : String} {spec : FieldSpec}
    {data : List (String × PyVal)} {n : String}
    (hm : (n, Option.none) ∈ spec) (hl : lookupD data n = Option.none) :
    mkObj c spec data = Option.none := by
  rw [mkObj]
  split
  · rw [constructFields_missing hm hl]
  · rfl

/-- Construction `cls(**data)` fails when `data` holds a key that is not a declared field. -/
theorem mkObj_extra_key {c : String} {spec : FieldSpec} {data : List (String × PyVal)}
    {p : String × PyVal} (hp : p ∈ data) (hk : ∀ sp ∈ spec, sp.1 ≠ p.1) :
    mkObj c spec data = Option.none := by
  rw [mkObj]
  split
  · rename_i hcond
    exfalso
    rw [List.all_eq_true] at hcond
    have h1 := hcond p hp
    rw [List.any_eq_true] at h1
    obtain ⟨sp, hsp, he⟩ := h1
    exact hk sp hsp (by rwa [beq_iff_eq] at he)
  · rfl

/-! ### JSON-shaped inputs and the objects they construct -/

theorem pureJsonList_mem {xs : List PyVal} (h : pureJsonList xs = true)
    {x : PyVal} (hx : x ∈ xs) : pureJson x = true := by
  induction xs with
  | nil => cases hx
  | cons y rest ih =>
      rw [pureJsonList, Bool.and_eq_true] at h
      rcases List.mem_cons.mp hx with he | hm
      · subst he; exact h.1
      · exact ih h.2 hm

theorem pureJsonFields_mem {kvs : List (String × PyVal)} (h : pureJsonFields kvs = true)
    {p : String × PyVal} (hp : p ∈ kvs) : pureJson p.2 = true := by
  induction kvs with
  | nil => cases hp
  | cons q rest ih =>
      obtain ⟨k, v⟩ := q
      rw [pureJsonFields, Bool.and_eq_true] at h
      rcases List.mem_cons.mp hp with he | hm
      · subst he; exact h.1
      · exact ih h.2 hm

theorem pureJson_not_none {v : PyVal} (h : pureJson v = true) : isNone v = false := by
  cases v <;> simp_all [pureJson, isNone]

theorem pureJson_inert {v : PyVal} (h : pureJson v = true) : inert v = true := by
  cases v with
  | list xs =>
      rw [pureJson] at h
      rw [inert, List.all_eq_true]
      intro x hx
      have hx' := pureJsonList_mem h hx
      cases x <;> simp_all [pureJson]
  | obj c fs => simp [pureJson] at h
  | enum c s => simp [pureJson] at h
  | none => simp [pureJson] at h
  | str s => rfl
  | int n => rfl
  | bool b => rfl
  | dict d => rfl

theorem mkObj_good {c : String} {spec : FieldSpec} {data : List (String × PyVal)}
    {x : PyVal} (hdata : pureJsonFields data = true)
    (hdef : defaultsInert spec = true)
    (h : mkObj c spec data = some x) : GoodObj c spec x := by
  obtain ⟨fs, hcf, hx⟩ := mkObj_some h
  refine ⟨fs, hx, constructFields_names hcf, ?_, ?_⟩
  · intro p hp
    rcases constructFields_mem_spec hcf p hp with h1 | ⟨h2a, h2b⟩
    · exact pureJson_inert (pureJsonFields_mem hdata (mem_of_lookupD h1))
    · rw [defaultsInert, List.all_eq_true] at hdef
      exact hdef _ h2b
  · intro p hp hnone
    rcases constructFields_mem_spec hcf p hp with h1 | ⟨h2a, h2b⟩
    · have hf := pureJson_not_none (pureJsonFields_mem hdata (mem_of_lookupD h1))
      rw [hnone] at hf
      cases hf
    · rw [(isNone_iff p.2).mp hnone] at h2b
      exact h2b

theorem goodObj_roundTrip {c : String} {spec : FieldSpec} {x : PyVal}
    (hnd : (spec.map Prod.fst).Nodup) (h : GoodObj c spec x) :
    ∃ fs, x = PyVal.obj c fs ∧ mkObj c spec (toDictFields fs) = some x := by
  obtain ⟨fs, hx, h1, h2, h3⟩ := h
  refine ⟨fs, hx, ?_⟩
  rw [hx]
  exact mkObj_toDictFields_roundTrip c spec fs h1 hnd h2 h3

theorem baseSecret_fields_nodup : (BaseSecret.fields.map Prod.fst).Nodup := by decide

theorem import_fields_nodup : (Import.fields.map Prod.fst).Nodup := by decide

theorem parseSecrets_good {ss secs : List PyVal} (hss : pureJsonList ss = true)
    (h : parseSecrets ss = some secs) :
    ∀ s ∈ secs, GoodObj "BaseSecret" BaseSecret.fields s := by
  induction ss generalizing secs with
  | nil =>
      rw [parseSecrets] at h
      injection h with h2
      subst h2
      intro s hs
      cases hs
  | cons x rest ih =>
      rw [pureJsonList, Bool.and_eq_true] at hss
      cases x with
      | dict d =>
          cases hsec : BaseSecret.from_dict d with
          | none =>
              rw [parseSecrets, hsec] at h
              simp at h
          | some sec =>
              cases hrest : parseSecrets rest with
              | none =>
                  rw [parseSecrets, hsec, hrest] at h
                  simp at h
              | some secs' =>
                  rw [parseSecrets, hsec, hrest] at h
                  injection h with h2
                  subst h2
                  intro s hs
                  rcases List.mem_cons.mp hs with he | hm
                  · subst he
                    exact mkObj_good hss.1 rfl hsec
                  · exact ih hss.2 hrest s hm
      | str s => simp [parseSecrets] at h
      | int n => simp [parseSecrets] at h
      | bool b => simp [parseSecrets] at h
      | none => simp [parseSecrets] at h
      | enum c v => simp [parseSecrets] at h
      | list xs => simp [parseSecrets] at h
      | obj c fs => simp [parseSecrets] at h

theorem parseImports_good {is imps : List PyVal} (his : pureJsonList is = true)
    (h : parseImports is = some imps) :
    ∀ i ∈ imps, GoodObj "Import" Import.fields i := by
  induction is generalizing imps with
  | nil =>
      rw [parseImports] at h
      injection h with h2
      subst h2
      intro i hi
      cases hi
  | cons x rest ih =>
      rw [pureJsonList, Bool.and_eq_true] at his
      cases x with
      | dict d =>
          cases himp : Import.from_dict d with
          | none =>
              rw [parseImports, himp] at h
              simp at h
          | some imp =>
              cases hrest : parseImports rest with
              | none =>
                  rw [parseImports, himp, hrest] at h
                  simp at h
              | some imps' =>
                  rw [parseImports, himp, hrest] at h
                  injection h with h2
                  subst h2
                  intro i hi
                  rcases List.mem_cons.mp hi with he | hm
                  · subst he
                    exact mkObj_good his.1 rfl himp
                  · exact ih his.2 hrest i hm
      | str s => simp [parseImports] at h
      | int n => simp [parseImports] at h
      | bool b => simp [parseImports] at h
      | none => simp [parseImports] at h
      | enum c v => simp [parseImports] at h
      | list xs => simp [parseImports] at h
      | obj c fs => simp [parseImports] at h

theorem parseSecrets_convList {secs : List PyVal}
    (h : ∀ s ∈ secs, GoodObj "BaseSecret" BaseSecret.fields s) :
    parseSecrets (convList secs) = some secs := by
  induction secs with
  | nil => rfl
  | cons s rest ih =>
      obtain ⟨fs, hx, h1, h2, h3⟩ := h s (List.mem_cons_self _ _)
      subst hx
      have hrt : BaseSecret.from_dict (toDictFields fs) =
          some (PyVal.obj "BaseSecret" fs) :=
        mkObj_toDictFields_roundTrip _ _ _ h1 baseSecret_fields_nodup h2 h3
      rw [convList, parseSecrets, hrt, ih fun q hq => h q (List.mem_cons_of_mem _ hq)]

theorem parseImports_convList {imps : List PyVal}
    (h : ∀ i ∈ imps, GoodObj "Import" Import.fields i) :
    parseImports (convList imps) = some imps := by
  induction imps with
  | nil => rfl
  | cons i rest ih =>
      obtain ⟨fs, hx, h1, h2, h3⟩ := h i (List.mem_cons_self _ _)
      subst hx
      have hrt : Import.from_dict (toDictFields fs) = some (PyVal.obj "Import" fs) :=
        mkObj_toDictFields_roundTrip _ _ _ h1 import_fields_nodup h2 h3
      rw [convList, parseImports, hrt, ih fun q hq => h q (List.mem_cons_of_mem _ hq)]

/-! ### Envelope round trips -/

theorem listSecretsResponse_from_dict_some {data : List (String × PyVal)} {x : PyVal}
    (h : ListSecretsResponse.from_dict data = some x) :
    ∃ ss secs is imps,
      lookupD data "secrets" = some (PyVal.list ss) ∧ parseSecrets ss = some secs ∧
      (lookupD data "imports").getD (PyVal.list []) = PyVal.list is ∧
      parseImports is = some imps ∧
      x = PyVal.obj "ListSecretsResponse"
        [("secrets", PyVal.list secs), ("imports", PyVal.list imps)] := by
  rw [ListSecretsResponse.from_dict] at h
  split at h
  · rename_i ss hs
    split at h
    · rename_i secs hp
      split at h
      · rename_i is hi
        split at h
        · rename_i imps hpi
          injection h with h2
          exact ⟨ss, secs, is, imps, hs, hp, hi, hpi, h2.symm⟩
        · simp at h
      · simp at h
    · simp at h
  · simp at h

theorem singleSecretResponse_from_dict_some {data : List (String × PyVal)} {x : PyVal}
    (h : SingleSecretResponse.from_dict data = some x) :
    ∃ d sec, lookupD data "secret" = some (PyVal.dict d) ∧
      BaseSecret.from_dict d = some sec ∧
      x = PyVal.obj "SingleSecretResponse" [("secret", sec)] := by
  rw [SingleSecretResponse.from_dict] at h
  split at h
  · rename_i d hs
    split at h
    · rename_i sec hsec
      injection h with h2
      exact ⟨d, sec, hs, hsec, h2.symm⟩
    · simp at h
  · simp at h

theorem listSecretsResponse_roundTrip {data : List (String × PyVal)} {x : PyVal}
    (hjson : pureJsonFields data = true)
    (h : ListSecretsResponse.from_dict data = some x) :
    ∃ d, BaseModel.to_dict x = some (PyVal.dict d) ∧
      ListSecretsResponse.from_dict d = some x := by
  obtain ⟨ss, secs, is, imps, hs, hp, hi, hpi, hx⟩ := listSecretsResponse_from_dict_some h
  have hssjson : pureJsonList ss = true :=
    pureJsonFields_mem hjson (mem_of_lookupD hs)
  have hsecs := parseSecrets_good hssjson hp
  have hisjson : pureJsonList is = true := by
    cases hl : lookupD data "imports" with
    | none =>
        rw [hl] at hi
        simp [Option.getD] at hi
        subst hi
        rfl
    | some v =>
        rw [hl] at hi
        simp [Option.getD] at hi
        have hv := pureJsonFields_mem hjson (mem_of_lookupD hl)
        rw [hi] at hv
        exact hv
  have himps := parseImports_good hisjson hpi
  subst hx
  refine ⟨[("secrets", PyVal.list (convList secs)),
           ("imports", PyVal.list (convList imps))], rfl, ?_⟩
  have e1 : lookupD [("secrets", PyVal.list (convList secs)),
      ("imports", PyVal.list (convList imps))] "secrets" =
      some (PyVal.list (convList secs)) := rfl
  have e2 : (lookupD [("secrets", PyVal.list (convList secs)),
      ("imports", PyVal.list (convList imps))] "imports").getD (PyVal.list []) =
      PyVal.list (convList imps) := rfl
  simp only [ListSecretsResponse.from_dict, e1, parseSecrets_convList hsecs, e2,
    parseImports_convList himps]

theorem singleSecretResponse_roundTrip {data : List (String × PyVal)} {x : PyVal}
    (hjson : pureJsonFields data = true)
    (h : SingleSecretResponse.from_dict data = some x) :
    ∃ d, BaseModel.to_dict x = some (PyVal.dict d) ∧
      SingleSecretResponse.from_dict d = some x := by
  obtain ⟨d0, sec, hs, hsec, hx⟩ := singleSecretResponse_from_dict_some h
  have hdjson : pureJsonFields d0 = true :=
    pureJsonFields_mem hjson (mem_of_lookupD hs)
  have hgood : GoodObj "BaseSecret" BaseSecret.fields sec := mkObj_good hdjson rfl hsec
  obtain ⟨fs, hsec_eq, hrt⟩ := goodObj_roundTrip baseSecret_fields_nodup hgood
  subst hx
  subst hsec_eq
  refine ⟨[("secret", PyVal.dict (toDictFields fs))], rfl, ?_⟩
  have e1 : lookupD [("secret", PyVal.dict (toDictFields fs))] "secret" =
      some (PyVal.dict (toDictFields fs)) := rfl
  simp only [SingleSecretResponse.from_dict, e1]
  rw [show BaseSecret.from_dict (toDictFields fs) =
    some (PyVal.obj "BaseSecret" fs) from hrt]

/-! ### Lookup congruences and explicit-null behaviour -/

theorem lookupD_append {l1 l2 : List (String × PyVal)} {k : String} :
    lookupD (l1 ++ l2) k =
      match lookupD l1 k with
      | some v => some v
      | Option.none => lookupD l2 k := by
  induction l1 with
  | nil => rfl
  | cons p rest ih =>
      obtain ⟨k0, v0⟩ := p
      rw [List.cons_append]
      by_cases hk : k0 = k
      · simp only [lookupD, if_pos hk]
      · simp only [lookupD, if_neg hk, ih]

theorem lookupD_middle {pre post : List (String × PyVal)} {k k' : String} {x : PyVal}
    (h : k' ≠ k) :
    lookupD (pre ++ (k, x) :: post) k' = lookupD (pre ++ post) k' := by
  rw [lookupD_append, lookupD_append]
  cases lookupD pre k' with
  | some v => rfl
  | none => rw [lookupD, if_neg (Ne.symm h)]

theorem argVal_congr {d1 d2 : List (String × PyVal)} {n : String} {d : Option PyVal}
    (h : lookupD d1 n = lookupD d2 n) : argVal d1 n d = argVal d2 n d := by
  unfold argVal
  rw [h]

theorem constructFields_congr {spec : FieldSpec} {d1 d2 : List (String × PyVal)}
    (h : ∀ sp ∈ spec, argVal d1 sp.1 sp.2 = argVal d2 sp.1 sp.2) :
    constructFields spec d1 = constructFields spec d2 := by
  induction spec with
  | nil => rfl
  | cons sp rest ih =>
      obtain ⟨n, d⟩ := sp
      rw [constructFields, constructFields, h (n, d) (List.mem_cons_self _ _),
        ih fun q hq => h q (List.mem_cons_of_mem _ hq)]

theorem mkObj_some' {c : String} {spec : FieldSpec} {data : List (String × PyVal)}
    {x : PyVal} (h : mkObj c spec data = some x) :
    data.all (fun p => spec.any fun s => s.1 == p.1) = true ∧
    ∃ fs, constructFields spec data = some fs ∧ x = PyVal.obj c fs := by
  rw [mkObj] at h
  split at h
  · rename_i hcheck
    split at h
    · rename_i fs hcf
      injection h with h2
      exact ⟨hcheck, fs, hcf, h2.symm⟩
    · cases h
  · cases h

/-- A key explicitly present with value `None` is accepted by `cls(**data)`:
the field is bound to `None`, and `to_dict` then omits it. -/
theorem mkObj_explicit_null {c : String} {spec : FieldSpec}
    {data : List (String × PyVal)} {k : String} {x : PyVal}
    (hl : lookupD data k = some PyVal.none)
    (hnd : (spec.map Prod.fst).Nodup)
    (h : mkObj c spec data = some x) :
    ∃ fs, x = PyVal.obj c fs ∧ (k, PyVal.none) ∈ fs ∧
      lookupD (toDictFields fs) k = Option.none := by
  obtain ⟨hcheck, fs, hcf, hx⟩ := mkObj_some' h
  have hkdata : (k, PyVal.none) ∈ data := mem_of_lookupD hl
  rw [List.all_eq_true] at hcheck
  have h1 := hcheck _ hkdata
  rw [List.any_eq_true] at h1
  obtain ⟨sp, hsp, he⟩ := h1
  rw [beq_iff_eq] at he
  have hsp2 : (sp.1, sp.2) ∈ spec := by rw [Prod.mk.eta]; exact hsp
  have he' : sp.1 = k := he
  have hsp' : (k, sp.2) ∈ spec := by rw [← he']; exact hsp2
  obtain ⟨v, hv, hmem⟩ := constructFields_entry hcf hsp'
  rw [argVal_some hl] at hv
  injection hv with hv2
  subst hv2
  refine ⟨fs, hx, hmem, ?_⟩
  have hndf : (fs.map Prod.fst).Nodup := by rw [constructFields_names hcf]; exact hnd
  rw [lookupD_toDictFields hndf hmem]
  rfl

/-- For an optional field whose declared default is `None`, passing the key
explicitly as null and omitting it construct the same instance. -/
theorem mkObj_null_default_irrelevant {c : String} {spec : FieldSpec}
    {pre post : List (String × PyVal)} {k : String}
    (hmem : (k, some PyVal.none) ∈ spec)
    (hnd : (spec.map Prod.fst).Nodup)
    (habs : lookupD (pre ++ post) k = Option.none) :
    mkObj c spec (pre ++ (k, PyVal.none) :: post) = mkObj c spec (pre ++ post) := by
  have hpre : lookupD pre k = Option.none := by
    rw [lookupD_append] at habs
    cases hl : lookupD pre k with
    | none => rfl
    | some v => rw [hl] at habs; simp at habs
  have hk1 : lookupD (pre ++ (k, PyVal.none) :: post) k = some PyVal.none := by
    rw [lookupD_append, hpre]
    simp [lookupD]
  have hanyk : spec.any (fun s => s.1 == k) = true :=
    List.any_eq_true.mpr ⟨(k, some PyVal.none), hmem, by simp⟩
  rw [mkObj, mkObj]
  have hcheck : (pre ++ (k, PyVal.none) :: post).all
      (fun p => spec.any fun s => s.1 == p.1) =
      (pre ++ post).all (fun p => spec.any fun s => s.1 == p.1) := by
    have hanyk' : (spec.any fun s => s.1 == (k, PyVal.none).1) = true := hanyk
    rw [List.all_append, List.all_cons, List.all_append, hanyk', Bool.true_and]
  rw [hcheck]
  have hcf : constructFields spec (pre ++ (k, PyVal.none) :: post) =
      constructFields spec (pre ++ post) := by
    apply constructFields_congr
    intro sp hsp
    by_cases he : sp.1 = k
    · have hsp2 : (sp.1, sp.2) ∈ spec := by rw [Prod.mk.eta]; exact hsp
      rw [he] at hsp2
      have hd : sp.2 = some PyVal.none := spec_default_unique hnd hsp2 hmem
      rw [he, hd, argVal_some hk1, argVal_none habs]
    · exact argVal_congr (lookupD_middle he)
  rw [hcf]

/-- Whatever value sits under a declared key in the mapping — including a raw
nested mapping — is stored in the constructed record verbatim. -/
theorem mkObj_stores_verbatim {c : String} {spec : FieldSpec}
    {data : List (String × PyVal)} {x : PyVal} {k : String} {v : PyVal}
    (h : mkObj c spec data = some x) (hl : lookupD data k = some v) :
    ∃ fs, x = PyVal.obj c fs ∧ (k, v) ∈ fs := by
  obtain ⟨hcheck, fs, hcf, hx⟩ := mkObj_some' h
  have hkdata : (k, v) ∈ data := mem_of_lookupD hl
  rw [List.all_eq_true] at hcheck
  have h1 := hcheck _ hkdata
  rw [List.any_eq_true] at h1
  obtain ⟨sp, hsp, he⟩ := h1
  rw [beq_iff_eq] at he
  have he' : sp.1 = k := he
  have hsp2 : (sp.1, sp.2) ∈ spec := by rw [Prod.mk.eta]; exact hsp
  have hsp' : (k, sp.2) ∈ spec := by rw [← he']; exact hsp2
  obtain ⟨w, hw, hmem⟩ := constructFields_entry hcf hsp'
  rw [argVal_some hl] at hw
  injection hw with hw2
  subst hw2
  exact ⟨fs, hx, hmem⟩

/-! ### Claim theorems -/

/-- C1 (amended): for every record of a type with no nested record fields
(every field value passes through `to_dict` unchanged) in which every field
holding `None` has `None` as its declared default, the generic round trip
`from_dict(to_dict(R))` yields a record equal to `R`. -/
theorem C1_flat_record_roundTrip (c : String) (spec : FieldSpec)
    (fs : List (String × PyVal))
    (hnames : fs.map Prod.fst = spec.map Prod.fst)
    (hnd : (spec.map Prod.fst).Nodup)
    (hinert : ∀ p ∈ fs, inert p.2 = true)
    (hnone : ∀ p ∈ fs, isNone p.2 = true → (p.1, some PyVal.none) ∈ spec) :
    ∃ d, BaseModel.to_dict (PyVal.obj c fs) = some (PyVal.dict d) ∧
      mkObj c spec d = some (PyVal.obj c fs) :=
  ⟨toDictFields fs, rfl, mkObj_toDictFields_roundTrip c spec fs hnames hnd hinert hnone⟩

/-- Witness for C1: a concrete `SecretTag` with unset `color` round-trips. -/
theorem C1_flat_record_roundTrip_witness :
    ∃ d, BaseModel.to_dict (PyVal.obj "SecretTag"
        [("id", PyVal.str "1"), ("slug", PyVal.str "s"),
         ("name", PyVal.str "n"), ("color", PyVal.none)]) = some (PyVal.dict d) ∧
      mkObj "SecretTag" SecretTag.fields d = some (PyVal.obj "SecretTag"
        [("id", PyVal.str "1"), ("slug", PyVal.str "s"),
         ("name", PyVal.str "n"), ("color", PyVal.none)]) :=
  C1_flat_record_roundTrip "SecretTag" SecretTag.fields
    [("id", PyVal.str "1"), ("slug", PyVal.str "s"),
     ("name", PyVal.str "n"), ("color", PyVal.none)]
    rfl (by decide) (by decide)
    (by
      intro p hp hn
      simp only [List.mem_cons, List.not_mem_nil, or_false] at hp
      rcases hp with rfl | rfl | rfl | rfl
      · simp [isNone] at hn
      · simp [isNone] at hn
      · simp [isNone] at hn
      · exact List.mem_cons_of_mem _ (List.mem_cons_of_mem _
          (List.mem_cons_of_mem _ (List.mem_cons_self _ _))))

/-- Counterexample for C1 as stated: `skipNoneSecretObj` is a `BaseSecret`
whose list fields are empty and whose fields hold only JSON primitives
(`skipMultilineEncoding` is `None`), yet `from_dict(to_dict(R))` returns a
record with `skipMultilineEncoding = False`, not equal to `R`. -/
theorem C1_roundTrip_counterexample :
    BaseModel.to_dict skipNoneSecretObj = some (PyVal.dict skipNoneSecretOut) ∧
    BaseSecret.from_dict skipNoneSecretOut = some requiredSecretObj ∧
    requiredSecretObj ≠ skipNoneSecretObj := by
  refine ⟨rfl, rfl, ?_⟩
  simp [requiredSecretObj, skipNoneSecretObj, requiredSecretData]

/-- C2: the generic `from_dict` does not recursively convert nested mappings:
`Import.from_dict` stores the raw `secrets` list unchanged, and
`BaseSecret.from_dict` stores raw `tags` / `secretMetadata` entries
unchanged (no `BaseSecret` / `SecretTag` / `SecretMetadata` construction). -/
theorem C2_generic_from_dict_not_recursive :
    (∀ (sp e : PyVal) (ss : List PyVal),
      Import.from_dict
          [("secretPath", sp), ("environment", e), ("secrets", PyVal.list ss)] =
        some (PyVal.obj "Import"
          [("secretPath", sp), ("environment", e), ("folderId", PyVal.none),
           ("secrets", PyVal.list ss)])) ∧
    (∀ (ts ms : List PyVal),
      BaseSecret.from_dict (requiredSecretData ++
          [("secretMetadata", PyVal.list ms), ("tags", PyVal.list ts)]) =
        some (PyVal.obj "BaseSecret" (requiredSecretData ++
          [("secretReminderNote", PyVal.none), ("secretReminderRepeatDays", PyVal.none),
           ("skipMultilineEncoding", PyVal.bool false), ("metadata", PyVal.none),
           ("secretMetadata", PyVal.list ms), ("secretPath", PyVal.none),
           ("tags", PyVal.list ts)]))) ∧
    (∀ (c : String) (spec : FieldSpec) (data : List (String × PyVal)) (x : PyVal)
        (k : String) (v : PyVal),
      mkObj c spec data = some x → lookupD data k = some v →
      ∃ fs, x = PyVal.obj c fs ∧ (k, v) ∈ fs) := by
  refine ⟨?_, ?_, ?_⟩
  · intro sp e ss
    rfl
  · intro ts ms
    rfl
  · intro c spec data x k v h hl
    exact mkObj_stores_verbatim h hl

/-- Witness for C2: an `Import` keeps a raw secret mapping verbatim in its
`secrets` field. -/
theorem C2_generic_from_dict_not_recursive_witness :
    ∃ fs, PyVal.obj "Import"
        [("secretPath", PyVal.str "/"), ("environment", PyVal.str "dev"),
         ("folderId", PyVal.none),
         ("secrets", PyVal.list [PyVal.dict requiredSecretData])] =
      PyVal.obj "Import" fs ∧
      ("secrets", PyVal.list [PyVal.dict requiredSecretData]) ∈ fs :=
  C2_generic_from_dict_not_recursive.2.2 "Import" Import.fields
    [("secretPath", PyVal.str "/"), ("environment", PyVal.str "dev"),
     ("secrets", PyVal.list [PyVal.dict requiredSecretData])]
    (PyVal.obj "Import"
      [("secretPath", PyVal.str "/"), ("environment", PyVal.str "dev"),
       ("folderId", PyVal.none),
       ("secrets", PyVal.list [PyVal.dict requiredSecretData])])
    "secrets" (PyVal.list [PyVal.dict requiredSecretData]) rfl rfl

/-- C3 (amended): for every envelope built by the dedicated `from_dict` from a
wire mapping that contains no explicit nulls, the round trip through
`to_dict` and back through the dedicated `from_dict` reproduces an equal
structure. -/
theorem C3_envelope_roundTrip :
    (∀ (data : List (String × PyVal)) (x : PyVal), pureJsonFields data = true →
      ListSecretsResponse.from_dict data = some x →
      ∃ d, BaseModel.to_dict x = some (PyVal.dict d) ∧
        ListSecretsResponse.from_dict d = some x) ∧
    (∀ (data : List (String × PyVal)) (x : PyVal), pureJsonFields data = true →
      SingleSecretResponse.from_dict data = some x →
      ∃ d, BaseModel.to_dict x = some (PyVal.dict d) ∧
        SingleSecretResponse.from_dict d = some x) :=
  ⟨fun _ _ hj h => listSecretsResponse_roundTrip hj h,
   fun _ _ hj h => singleSecretResponse_roundTrip hj h⟩

/-- Witness for C3: a concrete single-secret response round-trips. -/
theorem C3_envelope_roundTrip_witness :
    pureJsonFields [("secret", PyVal.dict requiredSecretData)] = true ∧
    ∃ d, BaseModel.to_dict (PyVal.obj "SingleSecretResponse"
        [("secret", requiredSecretObj)]) = some (PyVal.dict d) ∧
      SingleSecretResponse.from_dict d = some (PyVal.obj "SingleSecretResponse"
        [("secret", requiredSecretObj)]) :=
  ⟨rfl, C3_envelope_roundTrip.2 [("secret", PyVal.dict requiredSecretData)] _ rfl rfl⟩

/-- Counterexample for C3 as stated: a wire mapping whose secret carries an
explicit null `secretValue` constructs fine, but the round trip fails
entirely (`to_dict` drops the required field, so re-parsing errors). -/
theorem C3_envelope_roundTrip_counterexample :
    SingleSecretResponse.from_dict [("secret", PyVal.dict nullValueSecretData)] =
      some (PyVal.obj "SingleSecretResponse" [("secret", nullValueSecretObj)]) ∧
    BaseModel.to_dict
        (PyVal.obj "SingleSecretResponse" [("secret", nullValueSecretObj)]) =
      some (PyVal.dict [("secret", PyVal.dict nullValueSecretOut)]) ∧
    SingleSecretResponse.from_dict [("secret", PyVal.dict nullValueSecretOut)] =
      Option.none :=
  ⟨rfl, rfl, rfl⟩

/-- C4: `to_dict` omits exactly the `None`-valued fields (key-for-key), and on
the spec's example secret the output has no `secretReminderNote` or
`metadata` key but does carry `skipMultilineEncoding: false`,
`secretMetadata: []` and `tags: []`. -/
theorem C4_to_dict_omits_none :
    (∀ fs : List (String × PyVal),
      (toDictFields fs).map Prod.fst =
        (fs.filter fun p => !isNone p.2).map Prod.fst) ∧
    BaseSecret.from_dict requiredSecretData = some requiredSecretObj ∧
    BaseModel.to_dict requiredSecretObj = some (PyVal.dict requiredSecretOut) ∧
    lookupD requiredSecretOut "secretReminderNote" = Option.none ∧
    lookupD requiredSecretOut "metadata" = Option.none ∧
    lookupD requiredSecretOut "skipMultilineEncoding" = some (PyVal.bool false) ∧
    lookupD requiredSecretOut "secretMetadata" = some (PyVal.list []) ∧
    lookupD requiredSecretOut "tags" = some (PyVal.list []) := by
  refine ⟨?_, rfl, rfl, rfl, rfl, rfl, rfl, rfl⟩
  intro fs
  induction fs with
  | nil => rfl
  | cons p rest ih =>
      obtain ⟨k, v⟩ := p
      by_cases hn : isNone v
      · rw [toDictFields, if_pos hn, List.filter_cons]
        simp [hn, ih]
      · rw [toDictFields, if_neg hn, List.filter_cons]
        simp [hn, ih]

/-- Counterexample for C5 as stated: the `ListSecretsResponse.from_dict`
override succeeds on a mapping carrying an unexpected extra field, silently
ignoring it instead of failing. -/
theorem C5_extra_key_counterexample :
    ListSecretsResponse.from_dict
        [("secrets", PyVal.list []), ("unexpectedExtra", PyVal.int 1)] =
      some (PyVal.obj "ListSecretsResponse"
        [("secrets", PyVal.list []), ("imports", PyVal.list [])]) := rfl

/-- C5 (amended): on the generic `from_dict` path a missing required field or
an unexpected extra field is a construction error; the envelope overrides
fail when their required key (`secrets` / `secret`) is missing but ignore
unexpected extra top-level keys. -/
theorem C5_shape_errors :
    (∀ (c : String) (spec : FieldSpec) (data : List (String × PyVal))
        (p : String × PyVal),
      p ∈ data → (∀ sp ∈ spec, sp.1 ≠ p.1) → mkObj c spec data = Option.none) ∧
    (∀ (c : String) (spec : FieldSpec) (data : List (String × PyVal)) (n : String),
      (n, Option.none) ∈ spec → lookupD data n = Option.none →
      mkObj c spec data = Option.none) ∧
    (∀ data : List (String × PyVal), lookupD data "secrets" = Option.none →
      ListSecretsResponse.from_dict data = Option.none) ∧
    (∀ data : List (String × PyVal), lookupD data "secret" = Option.none →
      SingleSecretResponse.from_dict data = Option.none) := by
  refine ⟨fun c spec data p hp hk => mkObj_extra_key hp hk,
          fun c spec data n hm hl => mkObj_missing_required hm hl, ?_, ?_⟩
  · intro data h
    rw [ListSecretsResponse.from_dict, h]
  · intro data h
    rw [SingleSecretResponse.from_dict, h]

/-- Witness for C5: a `SecretTag` mapping with an unknown key is rejected. -/
theorem C5_shape_errors_witness :
    SecretTag.from_dict [("id", PyVal.str "1"), ("bogusKey", PyVal.int 0)] =
      Option.none :=
  C5_shape_errors.1 "SecretTag" SecretTag.fields
    [("id", PyVal.str "1"), ("bogusKey", PyVal.int 0)] ("bogusKey", PyVal.int 0)
    (by simp) (by decide)

/-- C6 (amended): a mapping with `secrets` but no `imports` key on which
`from_dict` succeeds parses with `imports == []`; any successful
construction (via the override, or via the plain constructor with `imports`
unset) leaves `imports` holding a list. -/
theorem C6_imports_default :
    (∀ (data : List (String × PyVal)) (x : PyVal),
      lookupD data "imports" = Option.none →
      ListSecretsResponse.from_dict data = some x →
      ∃ secs, x = PyVal.obj "ListSecretsResponse"
        [("secrets", PyVal.list secs), ("imports", PyVal.list [])]) ∧
    (∀ (data : List (String × PyVal)) (x : PyVal),
      ListSecretsResponse.from_dict data = some x →
      ∃ secs imps, x = PyVal.obj "ListSecretsResponse"
        [("secrets", PyVal.list secs), ("imports", PyVal.list imps)]) ∧
    (∀ (data : List (String × PyVal)) (x : PyVal),
      lookupD data "imports" = Option.none →
      mkObj "ListSecretsResponse" ListSecretsResponse.fields data = some x →
      ∃ sv, x = PyVal.obj "ListSecretsResponse"
        [("secrets", sv), ("imports", PyVal.list [])]) := by
  refine ⟨?_, ?_, ?_⟩
  · intro data x hno h
    obtain ⟨ss, secs, is, imps, hs, hp, hi, hpi, hx⟩ :=
      listSecretsResponse_from_dict_some h
    rw [hno] at hi
    simp [Option.getD] at hi
    subst hi
    rw [parseImports] at hpi
    injection hpi with h2
    subst h2
    exact ⟨secs, hx⟩
  · intro data x h
    obtain ⟨ss, secs, is, imps, _, _, _, _, hx⟩ :=
      listSecretsResponse_from_dict_some h
    exact ⟨secs, imps, hx⟩
  · intro data x hno h
    obtain ⟨fs, hcf, hx⟩ := mkObj_some h
    cases hs : lookupD data "secrets" with
    | none =>
        have hmiss : constructFields ListSecretsResponse.fields data = Option.none :=
          constructFields_missing (List.mem_cons_self _ _) hs
        rw [hmiss] at hcf
        cases hcf
    | some sv =>
        have h1 : argVal data "secrets" Option.none = some sv := argVal_some hs
        have h2 : argVal data "imports" (some (PyVal.list [])) =
            some (PyVal.list []) := argVal_none hno
        have hcf2 : constructFields ListSecretsResponse.fields data =
            some [("secrets", sv), ("imports", PyVal.list [])] := by
          simp only [ListSecretsResponse.fields, constructFields, h1, h2]
        rw [hcf2] at hcf
        injection hcf with h3
        subst h3
        exact ⟨sv, hx⟩

/-- Witness for C6: parsing `{"secrets": []}` yields empty `imports`. -/
theorem C6_imports_default_witness :
    ∃ secs, PyVal.obj "ListSecretsResponse"
        [("secrets", PyVal.list []), ("imports", PyVal.list [])] =
      PyVal.obj "ListSecretsResponse"
        [("secrets", PyVal.list secs), ("imports", PyVal.list [])] :=
  C6_imports_default.1 [("secrets", PyVal.list [])]
    (PyVal.obj "ListSecretsResponse"
      [("secrets", PyVal.list []), ("imports", PyVal.list [])])
    rfl rfl

/-- C7: `from_json` is `from_dict` after a JSON decode: a decode failure
propagates unchanged (no record), and on a successfully decoded mapping
`from_json` behaves exactly as `from_dict` on it. -/
theorem C7_from_json_wrapper :
    ∀ (fd : List (String × PyVal) → Option PyVal)
      (decode : String → Option PyVal) (s : String),
      (decode s = Option.none → BaseModel.from_json fd decode s = Option.none) ∧
      (∀ d, decode s = some (PyVal.dict d) →
        BaseModel.from_json fd decode s = fd d) := by
  intro fd decode s
  constructor
  · intro h
    rw [BaseModel.from_json, h]
  · intro d h
    rw [BaseModel.from_json, h]

/-- Witness for C7: a failing decode makes `from_json` fail. -/
theorem C7_from_json_wrapper_witness :
    BaseModel.from_json SecretTag.from_dict
      (fun _ => Option.none) "not json" = Option.none :=
  (C7_from_json_wrapper SecretTag.from_dict (fun _ => Option.none) "not json").1 rfl

/-- C8: `SecretTag` equality is structural on `(id, slug, name, color)`, and a
constructed tag is frozen: every attribute assignment fails, so its fields
never change. -/
theorem C8_secretTag_structural_eq_and_frozen :
    (∀ i s n c i' s' n' c' : PyVal,
      PyVal.obj "SecretTag" [("id", i), ("slug", s), ("name", n), ("color", c)] =
        PyVal.obj "SecretTag"
          [("id", i'), ("slug", s'), ("name", n'), ("color", c')] ↔
        (i = i' ∧ s = s' ∧ n = n' ∧ c = c')) ∧
    (∀ (i s n c : PyVal) (k : String) (v : PyVal),
      setattr (PyVal.obj "SecretTag"
        [("id", i), ("slug", s), ("name", n), ("color", c)]) k v = Option.none) := by
  constructor
  · intro i s n c i' s' n' c'
    simp
  · intro i s n c k v
    rfl

/-- C9: `to_dict` replaces an enumeration-valued field by the enum's
underlying string value, e.g. `ApprovalStatus.APPROVED` becomes
`"approved"`. -/
theorem C9_enum_serialized_as_value :
    (∀ (pre post : List (String × PyVal)) (k cls v : String),
      toDictFields (pre ++ (k, PyVal.enum cls v) :: post) =
        toDictFields pre ++ (k, PyVal.str v) :: toDictFields post) ∧
    BaseModel.to_dict
        (PyVal.obj "SecretApprovalRequest" [("status", ApprovalStatus.APPROVED)]) =
      some (PyVal.dict [("status", PyVal.str "approved")]) := by
  refine ⟨?_, rfl⟩
  intro pre post k cls v
  induction pre with
  | nil => rfl
  | cons p rest ih =>
      obtain ⟨k0, v0⟩ := p
      by_cases hn : isNone v0
      · simp only [List.cons_append, toDictFields, if_pos hn, List.append_eq, ih]
      · simp only [List.cons_append, toDictFields, if_neg hn, List.append_eq, ih]

/-- Counterexample for C10 as stated: for `skipMultilineEncoding` (an optional
field whose declared default is `False`, not `None`) an explicit null and a
wholly absent key are distinguishable after one `from_dict`/`to_dict` round
trip: the null leaves no key, absence emits `skipMultilineEncoding: false`. -/
theorem C10_null_vs_absent_counterexample :
    BaseSecret.from_dict
        (requiredSecretData ++ [("skipMultilineEncoding", PyVal.none)]) =
      some skipNoneSecretObj ∧
    BaseModel.to_dict skipNoneSecretObj = some (PyVal.dict skipNoneSecretOut) ∧
    BaseSecret.from_dict requiredSecretData = some requiredSecretObj ∧
    BaseModel.to_dict requiredSecretObj = some (PyVal.dict requiredSecretOut) ∧
    skipNoneSecretOut ≠ requiredSecretOut := by
  refine ⟨rfl, rfl, rfl, rfl, ?_⟩
  simp [skipNoneSecretOut, requiredSecretOut, requiredSecretData]

/-- C10 (amended): the generic `from_dict` accepts an explicitly null field
whose key is declared, binds it to `None`, and `to_dict` then omits the key;
for an optional field whose declared default is `None`, an explicit null and
an absent key construct the same record, so they are indistinguishable after
one round trip. (For `skipMultilineEncoding`, whose default is `False`, the
two remain distinguishable.) -/
theorem C10_explicit_null_amended :
    (∀ (c : String) (spec : FieldSpec) (data : List (String × PyVal))
        (k : String) (x : PyVal),
      lookupD data k = some PyVal.none → (spec.map Prod.fst).Nodup →
      mkObj c spec data = some x →
      ∃ fs, x = PyVal.obj c fs ∧ (k, PyVal.none) ∈ fs ∧
        lookupD (toDictFields fs) k = Option.none) ∧
    (∀ (c : String) (spec : FieldSpec) (pre post : List (String × PyVal))
        (k : String),
      (k, some PyVal.none) ∈ spec → (spec.map Prod.fst).Nodup →
      lookupD (pre ++ post) k = Option.none →
      mkObj c spec (pre ++ (k, PyVal.none) :: post) = mkObj c spec (pre ++ post)) :=
  ⟨fun _ _ _ _ _ hl hnd h => mkObj_explicit_null hl hnd h,
   fun _ _ _ _ _ hmem hnd habs => mkObj_null_default_irrelevant hmem hnd habs⟩

/-- Witness for C10: an explicitly null `color` and an absent `color` build
the same `SecretTag`. -/
theorem C10_explicit_null_witness :
    SecretTag.from_dict
        [("id", PyVal.str "1"), ("slug", PyVal.str "s"), ("name", PyVal.str "n"),
         ("color", PyVal.none)] =
      SecretTag.from_dict
        [("id", PyVal.str "1"), ("slug", PyVal.str "s"), ("name", PyVal.str "n")] :=
  C10_explicit_null_amended.2 "SecretTag" SecretTag.fields
    [("id", PyVal.str "1"), ("slug", PyVal.str "s"), ("name", PyVal.str "n")] []
    "color"
    (List.mem_cons_of_mem _ (List.mem_cons_of_mem _
      (List.mem_cons_of_mem _ (List.mem_cons_self _ _))))
    (by decide) rfl

/-- Counterexample for C6 as stated: a mapping with a `secrets` key and no
`imports` key on which `ListSecretsResponse.from_dict` does not succeed at
all (the `secrets` value is not a list of secret mappings). -/
theorem C6_succeeds_counterexample :
    lookupD [("secrets", PyVal.int 5)] "imports" = Option.none ∧
    ListSecretsResponse.from_dict [("secrets", PyVal.int 5)] = Option.none :=
  ⟨rfl, rfl⟩
